import Mathlib

/-!
Verification of the character-statistics component (src/stats.rs).

The Rust source stores `base` and `multipliers` as `HashMap<Stat, f32>`.
A `HashMap` is, extensionally, a partial map from keys to values, so both
maps are embedded as `Stat → Option ℚ`.  The `f32` values are embedded as
exact rationals `ℚ`; all arithmetic of the source is then exact.
`f32::round` rounds half away from zero, and the Rust `as i32` cast of a
finite float saturates at the `i32` bounds; both are embedded explicitly
(`roundHalfAway`, `toI32sat`).  The `.unwrap()` panic on a missing base
stat is embedded by returning `none` from `get_stat`.
-/

/-- Character stat (the `Stat` enum of src/stats.rs): strength,
intelligence, swiftness. -/
inductive Stat
  | Str
  | Int
  | Swi
deriving DecidableEq

/-- Stat multiplier (the `Multiplier` struct): a stat together with a
percentage value (0.1 = +10%). -/
structure Multiplier where
  stat : Stat
  value : ℚ

/-- Character stats (the `CharacterStats` struct): base values and
accumulated multipliers, each a partial map keyed by `Stat`. -/
structure CharacterStats where
  base : Stat → Option ℚ
  multipliers : Stat → Option ℚ

/-- `CharacterStats::new`: stores the given base map and an empty
multiplier map. -/
def CharacterStats.new (b : Stat → Option ℚ) : CharacterStats :=
  ⟨b, fun _ => none⟩

/-- Semantics of `f32::round`: nearest integer, ties away from zero. -/
def roundHalfAway (q : ℚ) : ℤ :=
  if 0 ≤ q then ⌊q + 1 / 2⌋ else ⌈q - 1 / 2⌉

/-- Semantics of the Rust `as i32` cast on a finite rounded float:
saturates at the `i32` bounds. -/
def toI32sat (z : ℤ) : ℤ :=
  max (-(2 ^ 31)) (min (2 ^ 31 - 1) z)

/-- `CharacterStats::get_stat`: looks up the accumulated multiplier
(treating an absent entry as contributing the factor `1`), multiplies the
base value by `1 + it`, rounds, and casts to `i32`.  The `.unwrap()` on a
base lookup miss (a Rust panic) is embedded as `none`. -/
def CharacterStats.get_stat (s : CharacterStats) (stat : Stat) : Option ℤ :=
  let multiplier : ℚ :=
    match s.multipliers stat with
    | some val => 1 + val
    | none => 1
  (s.base stat).map fun b => toI32sat (roundHalfAway (b * multiplier))

/-- `CharacterStats::add_multiplier`:
`*self.multipliers.entry(stat.stat).or_insert(0.0) += stat.value`.
The entry is created at `0` when absent, then increased by `m.value`. -/
def CharacterStats.add_multiplier (s : CharacterStats) (m : Multiplier) : CharacterStats :=
  ⟨s.base, fun st =>
    if st = m.stat then some ((s.multipliers m.stat).getD 0 + m.value)
    else s.multipliers st⟩

/-- `CharacterStats::sub_multiplier`:
`*self.multipliers.entry(stat.stat).or_insert(0.0) -= stat.value`. -/
def CharacterStats.sub_multiplier (s : CharacterStats) (m : Multiplier) : CharacterStats :=
  ⟨s.base, fun st =>
    if st = m.stat then some ((s.multipliers m.stat).getD 0 - m.value)
    else s.multipliers st⟩

/-- The accumulated multiplier for a stat, an absent entry counting as
`0` (the `multipliers.get(stat, default 0.0)` of the spec). -/
def accMult (s : CharacterStats) (st : Stat) : ℚ :=
  (s.multipliers st).getD 0

/-- `n` successive `add_multiplier` calls with the same multiplier. -/
def addN (s : CharacterStats) (m : Multiplier) : ℕ → CharacterStats
  | 0 => s
  | n + 1 => (addN s m n).add_multiplier m

/-- `n` successive `sub_multiplier` calls with the same multiplier. -/
def subN (s : CharacterStats) (m : Multiplier) : ℕ → CharacterStats
  | 0 => s
  | n + 1 => (subN s m n).sub_multiplier m

/-- One call of the public API, for reasoning about call sequences.
`get_stat` takes `&self` in the source, so as a state transformer it is
the identity. -/
inductive Op
  | get (st : Stat)
  | add (m : Multiplier)
  | sub (m : Multiplier)

/-- State effect of one public call. -/
def applyOp (s : CharacterStats) : Op → CharacterStats
  | Op.get _ => s
  | Op.add m => s.add_multiplier m
  | Op.sub m => s.sub_multiplier m

/-- State after a sequence of public calls. -/
def runOps (s : CharacterStats) : List Op → CharacterStats
  | [] => s
  | op :: ops => runOps (applyOp s op) ops

/-- The base map used by the source's `mock_base_stats` test fixture:
every stat at 10, no multipliers. -/
def s10 : CharacterStats :=
  CharacterStats.new fun _ => some 10

lemma get_stat_eq_acc (s : CharacterStats) (st : Stat) :
    s.get_stat st
      = (s.base st).map fun b => toI32sat (roundHalfAway (b * (1 + accMult s st))) := by
  unfold CharacterStats.get_stat accMult
  cases s.multipliers st <;> simp

lemma accMult_add_multiplier (s : CharacterStats) (m : Multiplier) (st : Stat) :
    accMult (s.add_multiplier m) st
      = if st = m.stat then accMult s m.stat + m.value else accMult s st := by
  unfold accMult CharacterStats.add_multiplier
  by_cases h : st = m.stat <;> simp [h]

lemma accMult_sub_multiplier (s : CharacterStats) (m : Multiplier) (st : Stat) :
    accMult (s.sub_multiplier m) st
      = if st = m.stat then accMult s m.stat - m.value else accMult s st := by
  unfold accMult CharacterStats.sub_multiplier
  by_cases h : st = m.stat <;> simp [h]

lemma base_add_multiplier (s : CharacterStats) (m : Multiplier) :
    (s.add_multiplier m).base = s.base := rfl

lemma base_sub_multiplier (s : CharacterStats) (m : Multiplier) :
    (s.sub_multiplier m).base = s.base := rfl

lemma base_addN (s : CharacterStats) (m : Multiplier) (n : ℕ) :
    (addN s m n).base = s.base := by
  induction n with
  | zero => rfl
  | succ k ih => rw [addN, base_add_multiplier, ih]

lemma base_subN (s : CharacterStats) (m : Multiplier) (n : ℕ) :
    (subN s m n).base = s.base := by
  induction n with
  | zero => rfl
  | succ k ih => rw [subN, base_sub_multiplier, ih]

lemma accMult_addN (s : CharacterStats) (m : Multiplier) (n : ℕ) :
    accMult (addN s m n) m.stat = accMult s m.stat + n * m.value := by
  induction n with
  | zero => simp [addN]
  | succ k ih =>
    rw [addN, accMult_add_multiplier, if_pos rfl, ih]
    push_cast
    ring

lemma accMult_subN (s : CharacterStats) (m : Multiplier) (n : ℕ) :
    accMult (subN s m n) m.stat = accMult s m.stat - n * m.value := by
  induction n with
  | zero => simp [subN]
  | succ k ih =>
    rw [subN, accMult_sub_multiplier, if_pos rfl, ih]
    push_cast
    ring

lemma accMult_addN_ne (s : CharacterStats) (m : Multiplier) (st : Stat)
    (h : st ≠ m.stat) (n : ℕ) :
    accMult (addN s m n) st = accMult s st := by
  induction n with
  | zero => rfl
  | succ k ih => rw [addN, accMult_add_multiplier, if_neg h, ih]

lemma accMult_subN_ne (s : CharacterStats) (m : Multiplier) (st : Stat)
    (h : st ≠ m.stat) (n : ℕ) :
    accMult (subN s m n) st = accMult s st := by
  induction n with
  | zero => rfl
  | succ k ih => rw [subN, accMult_sub_multiplier, if_neg h, ih]

lemma toI32sat_eq_self (z : ℤ) (h1 : -(2 ^ 31) ≤ z) (h2 : z ≤ 2 ^ 31 - 1) :
    toI32sat z = z := by
  unfold toI32sat
  omega

lemma get_stat_eval (s : CharacterStats) (st : Stat) (b a : ℚ) (r : ℤ)
    (hb : s.base st = some b) (ha : accMult s st = a)
    (hr : toI32sat (roundHalfAway (b * (1 + a))) = r) :
    s.get_stat st = some r := by
  rw [get_stat_eq_acc, hb, ha, Option.map_some', hr]

/-- C2: get_stat fails (panics on `.unwrap()`, embedded as `none`) exactly
when the queried stat is absent from the base map; whenever the stat is
present it returns an integer, whatever the multipliers map holds. -/
theorem get_stat_none_iff_base_none (s : CharacterStats) (st : Stat) :
    s.get_stat st = none ↔ s.base st = none := by
  rw [get_stat_eq_acc]
  cases s.base st <;> simp

/-- C5: add_multiplier sets the multiplier entry for `m.stat` to its old
value (0 when absent, via `or_insert(0.0)`) plus `m.value`, and
sub_multiplier symmetrically to it minus `m.value`; both are total
functions, so neither can fail. -/
theorem add_sub_multiplier_entry (s : CharacterStats) (m : Multiplier) :
    (s.add_multiplier m).multipliers m.stat
        = some ((s.multipliers m.stat).getD 0 + m.value)
      ∧ (s.sub_multiplier m).multipliers m.stat
        = some ((s.multipliers m.stat).getD 0 - m.value) := by
  constructor <;> simp [CharacterStats.add_multiplier, CharacterStats.sub_multiplier]

/-- C6: on base Str = 10 (the source's test fixture) get_stat(Str) is 10
with no multipliers, 11 after one +0.1, 17 after seven +0.1, 9 after one
-0.1, and 3 after seven -0.1. -/
theorem base_ten_scenarios :
    s10.get_stat Stat.Str = some 10
      ∧ (s10.add_multiplier ⟨Stat.Str, 1 / 10⟩).get_stat Stat.Str = some 11
      ∧ (addN s10 ⟨Stat.Str, 1 / 10⟩ 7).get_stat Stat.Str = some 17
      ∧ (s10.add_multiplier ⟨Stat.Str, -(1 / 10)⟩).get_stat Stat.Str = some 9
      ∧ (addN s10 ⟨Stat.Str, -(1 / 10)⟩ 7).get_stat Stat.Str = some 3 := by
  have hacc0 : accMult s10 Stat.Str = 0 := rfl
  have haccA : ∀ v : ℚ, accMult (s10.add_multiplier ⟨Stat.Str, v⟩) Stat.Str = v := by
    intro v
    rw [accMult_add_multiplier, if_pos rfl]
    simp [hacc0]
  have haccN : ∀ (v : ℚ) (n : ℕ),
      accMult (addN s10 ⟨Stat.Str, v⟩ n) Stat.Str = n * v := by
    intro v n
    rw [show Stat.Str = (⟨Stat.Str, v⟩ : Multiplier).stat from rfl, accMult_addN]
    simp [hacc0]
  refine ⟨?_, ?_, ?_, ?_, ?_⟩
  · exact get_stat_eval s10 Stat.Str 10 0 10 rfl hacc0
      (by norm_num [roundHalfAway, toI32sat])
  · exact get_stat_eval _ Stat.Str 10 (1 / 10) 11 rfl (haccA (1 / 10))
      (by norm_num [roundHalfAway, toI32sat])
  · exact get_stat_eval _ Stat.Str 10 _ 17
      (by rw [base_addN]; rfl) (haccN (1 / 10) 7)
      (by norm_num [roundHalfAway, toI32sat])
  · exact get_stat_eval _ Stat.Str 10 (-(1 / 10)) 9 rfl (haccA (-(1 / 10)))
      (by norm_num [roundHalfAway, toI32sat])
  · exact get_stat_eval _ Stat.Str 10 _ 3
      (by rw [base_addN]; rfl) (haccN (-(1 / 10)) 7)
      (by norm_num [roundHalfAway, toI32sat])

/-- A base map holding 2^32 (exactly representable in f32) for every
stat; used to exercise the saturating cast in `get_stat`. -/
def s32 : CharacterStats :=
  CharacterStats.new fun _ => some 4294967296

/-- C1 counterexample: with base Str = 2^32 and no multipliers, get_stat
returns the saturated value 2^31 - 1, not round(base * (1 + 0)) = 2^32,
so get_stat does not always return the rounded product. -/
theorem get_stat_saturation_cex :
    s32.base Stat.Str = some 4294967296
      ∧ accMult s32 Stat.Str = 0
      ∧ s32.get_stat Stat.Str = some 2147483647
      ∧ roundHalfAway ((4294967296 : ℚ) * (1 + 0)) = 4294967296
      ∧ (2147483647 : ℤ) ≠ 4294967296 :=
  ⟨rfl, rfl,
    get_stat_eval s32 Stat.Str 4294967296 0 2147483647 rfl rfl
      (by norm_num [roundHalfAway, toI32sat]),
    by norm_num [roundHalfAway], by norm_num⟩

/-- C1 (amended): when the queried stat is present in base, get_stat
returns round(base[stat] * (1 + m)), with m the accumulated multiplier
(0 when no entry exists), provided that rounded value lies within the
i32 range; outside that range the `as i32` cast saturates. -/
theorem get_stat_rounded_formula (s : CharacterStats) (st : Stat) (b : ℚ)
    (hb : s.base st = some b)
    (hlo : -(2 ^ 31) ≤ roundHalfAway (b * (1 + accMult s st)))
    (hhi : roundHalfAway (b * (1 + accMult s st)) ≤ 2 ^ 31 - 1) :
    s.get_stat st = some (roundHalfAway (b * (1 + accMult s st))) :=
  get_stat_eval s st b (accMult s st) _ hb rfl (toI32sat_eq_self _ hlo hhi)

/-- Witness for the amended C1 at the test fixture (base Str = 10, no
multipliers). -/
theorem get_stat_rounded_formula_witness :
    s10.base Stat.Str = some 10
      ∧ -(2 ^ 31) ≤ roundHalfAway ((10 : ℚ) * (1 + accMult s10 Stat.Str))
      ∧ roundHalfAway ((10 : ℚ) * (1 + accMult s10 Stat.Str)) ≤ 2 ^ 31 - 1
      ∧ s10.get_stat Stat.Str
          = some (roundHalfAway ((10 : ℚ) * (1 + accMult s10 Stat.Str))) :=
  ⟨rfl,
    by rw [show accMult s10 Stat.Str = 0 from rfl]; norm_num [roundHalfAway],
    by rw [show accMult s10 Stat.Str = 0 from rfl]; norm_num [roundHalfAway],
    get_stat_rounded_formula s10 Stat.Str 10 rfl
      (by rw [show accMult s10 Stat.Str = 0 from rfl]; norm_num [roundHalfAway])
      (by rw [show accMult s10 Stat.Str = 0 from rfl]; norm_num [roundHalfAway])⟩

/-- C3: any balanced sequence of N add_multiplier calls followed by N
sub_multiplier calls with the same Multiplier restores every get_stat
value (in particular the one for that multiplier's stat) to what it was
before the sequence, from any starting state. -/
theorem balanced_add_sub_restores (s : CharacterStats) (m : Multiplier) (n : ℕ)
    (st : Stat) :
    (subN (addN s m n) m n).get_stat st = s.get_stat st := by
  have hacc : accMult (subN (addN s m n) m n) st = accMult s st := by
    by_cases h : st = m.stat
    · subst h
      rw [accMult_subN, accMult_addN]
      ring
    · rw [accMult_subN_ne _ _ _ h, accMult_addN_ne _ _ _ h]
  rw [get_stat_eq_acc, get_stat_eq_acc, base_subN, base_addN, hacc]

/-- C4 (amended): on a fresh CharacterStats, N add_multiplier calls of
value P always yield the same get_stat value as a single add_multiplier
of value N*P, in all cases — the saturating ones included; and whenever
round(B * (1 + N*P)) lies within i32 range, that common value is
round(B * (1 + N*P)) (the `as i32` cast saturates outside it). -/
theorem addN_equiv_single (bm : Stat → Option ℚ) (st : Stat) (P : ℚ) (N : ℕ) :
    ((addN (CharacterStats.new bm) ⟨st, P⟩ N).get_stat st
        = ((CharacterStats.new bm).add_multiplier ⟨st, N * P⟩).get_stat st)
      ∧ ∀ B : ℚ, bm st = some B →
          -(2 ^ 31) ≤ roundHalfAway (B * (1 + N * P)) →
          roundHalfAway (B * (1 + N * P)) ≤ 2 ^ 31 - 1 →
          (addN (CharacterStats.new bm) ⟨st, P⟩ N).get_stat st
            = some (roundHalfAway (B * (1 + N * P))) := by
  have hacc1 : accMult (addN (CharacterStats.new bm) ⟨st, P⟩ N) st = N * P := by
    have h := accMult_addN (CharacterStats.new bm) ⟨st, P⟩ N
    dsimp only at h
    rw [h, show accMult (CharacterStats.new bm) st = 0 from rfl, zero_add]
  have hacc2 : accMult ((CharacterStats.new bm).add_multiplier ⟨st, N * P⟩) st
      = N * P := by
    have h := accMult_add_multiplier (CharacterStats.new bm) ⟨st, N * P⟩ st
    dsimp only at h
    rw [h, if_pos rfl, show accMult (CharacterStats.new bm) st = 0 from rfl,
      zero_add]
  constructor
  · rw [get_stat_eq_acc, get_stat_eq_acc, base_addN, base_add_multiplier,
      hacc1, hacc2]
  · intro B hb hlo hhi
    exact get_stat_eval _ st B _ _ (by rw [base_addN]; exact hb) hacc1
      (toI32sat_eq_self _ hlo hhi)

/-- Witness for the amended C4 at the test fixture: seven stacked +10%
multipliers on base 10 equal one +70% multiplier, and give 17. -/
theorem addN_equiv_single_witness :
    ((addN (CharacterStats.new fun _ => some (10 : ℚ)) ⟨Stat.Str, 1 / 10⟩ 7).get_stat
          Stat.Str
        = ((CharacterStats.new fun _ => some (10 : ℚ)).add_multiplier
            ⟨Stat.Str, ((7 : ℕ) : ℚ) * (1 / 10)⟩).get_stat Stat.Str)
      ∧ ((fun _ : Stat => some (10 : ℚ)) Stat.Str = some 10)
      ∧ -(2 ^ 31) ≤ roundHalfAway ((10 : ℚ) * (1 + ((7 : ℕ) : ℚ) * (1 / 10)))
      ∧ roundHalfAway ((10 : ℚ) * (1 + ((7 : ℕ) : ℚ) * (1 / 10))) ≤ 2 ^ 31 - 1
      ∧ (addN (CharacterStats.new fun _ => some 10) ⟨Stat.Str, 1 / 10⟩ 7).get_stat
            Stat.Str
          = some (roundHalfAway ((10 : ℚ) * (1 + ((7 : ℕ) : ℚ) * (1 / 10)))) :=
  ⟨(addN_equiv_single (fun _ => some 10) Stat.Str (1 / 10) 7).1,
    rfl, by norm_num [roundHalfAway], by norm_num [roundHalfAway],
    (addN_equiv_single (fun _ => some 10) Stat.Str (1 / 10) 7).2 10 rfl
      (by norm_num [roundHalfAway]) (by norm_num [roundHalfAway])⟩

/-- A base map holding 2^31 (exactly representable in f32) for every
stat; one +100% multiplier then overflows the i32 range. -/
def s31 : CharacterStats :=
  CharacterStats.new fun _ => some 2147483648

/-- C4 counterexample: on a fresh CharacterStats with base 2^31, one
add_multiplier of value 1 gives get_stat = 2^31 - 1 (the cast saturates),
not round(B * (1 + 1*1)) = 2^32, so the claimed formula fails as stated. -/
theorem addN_saturation_cex :
    (addN s31 ⟨Stat.Str, 1⟩ 1).get_stat Stat.Str = some 2147483647
      ∧ roundHalfAway ((2147483648 : ℚ) * (1 + ((1 : ℕ) : ℚ) * 1)) = 4294967296
      ∧ (2147483647 : ℤ) ≠ 4294967296 := by
  refine ⟨?_, by norm_num [roundHalfAway], by norm_num⟩
  refine get_stat_eval _ Stat.Str 2147483648 1 2147483647 rfl ?_
    (by norm_num [roundHalfAway, toI32sat])
  have h := accMult_add_multiplier s31 ⟨Stat.Str, 1⟩ Stat.Str
  dsimp only at h
  rw [show addN s31 ⟨Stat.Str, (1 : ℚ)⟩ 1 = s31.add_multiplier ⟨Stat.Str, 1⟩ from rfl,
    h, if_pos rfl, show accMult s31 Stat.Str = 0 from rfl, zero_add]

lemma base_applyOp (s : CharacterStats) (op : Op) :
    (applyOp s op).base = s.base := by
  cases op <;> rfl

lemma base_runOps (ops : List Op) : ∀ s : CharacterStats, (runOps s ops).base = s.base := by
  induction ops with
  | nil => intro s; rfl
  | cons op rest ih => intro s; rw [runOps, ih, base_applyOp]

/-- C7: after any sequence of get_stat, add_multiplier and sub_multiplier
calls, the base map is still the map passed to the constructor; and
get_stat (which takes `&self`) leaves the whole state unchanged. -/
theorem base_never_mutated (bm : Stat → Option ℚ) (ops : List Op) :
    (runOps (CharacterStats.new bm) ops).base = bm
      ∧ ∀ (s : CharacterStats) (st : Stat), applyOp s (Op.get st) = s :=
  ⟨base_runOps ops (CharacterStats.new bm), fun _ _ => rfl⟩

/-- C8: when the product base[stat] * (1 + multiplier) is an exact tie
(integer k plus one half, within i32 range), get_stat rounds it away from
zero: to k + 1 for nonnegative ties, to k for negative ones, and the
magnitude of the result exceeds the magnitude of the product. -/
theorem get_stat_tie_away_from_zero (s : CharacterStats) (st : Stat) (b : ℚ)
    (k : ℤ) (hb : s.base st = some b)
    (htie : b * (1 + accMult s st) = (k : ℚ) + 1 / 2)
    (hlo : -(2 ^ 31) ≤ k) (hhi : k + 1 ≤ 2 ^ 31 - 1) :
    s.get_stat st = some (if 0 ≤ k then k + 1 else k)
      ∧ |(k : ℚ) + 1 / 2| < |((if 0 ≤ k then k + 1 else k : ℤ) : ℚ)| := by
  have hround : roundHalfAway ((k : ℚ) + 1 / 2) = if 0 ≤ k then k + 1 else k := by
    unfold roundHalfAway
    by_cases hk : 0 ≤ k
    · have hk0 : (0 : ℚ) ≤ (k : ℚ) := by exact_mod_cast hk
      rw [if_pos (by linarith), if_pos hk]
      have hcast : (k : ℚ) + 1 / 2 + 1 / 2 = ((k + 1 : ℤ) : ℚ) := by
        push_cast
        ring
      rw [hcast, Int.floor_intCast]
    · have hk1 : (k : ℚ) ≤ -1 := by exact_mod_cast (by omega : k ≤ -1)
      rw [if_neg (by linarith), if_neg hk]
      have hcast : (k : ℚ) + 1 / 2 - 1 / 2 = ((k : ℤ) : ℚ) := by ring
      rw [hcast, Int.ceil_intCast]
  constructor
  · refine get_stat_eval s st b (accMult s st) _ hb rfl ?_
    rw [htie, hround]
    exact toI32sat_eq_self _ (by split_ifs <;> omega) (by split_ifs <;> omega)
  · by_cases hk : 0 ≤ k
    · have hk0 : (0 : ℚ) ≤ (k : ℚ) := by exact_mod_cast hk
      rw [if_pos hk, abs_of_nonneg (by linarith),
        abs_of_nonneg (by push_cast; linarith)]
      push_cast
      linarith
    · have hk1 : (k : ℚ) ≤ -1 := by exact_mod_cast (by omega : k ≤ -1)
      rw [if_neg hk, abs_of_nonpos (by linarith),
        abs_of_nonpos (by linarith)]
      linarith

/-- A base map with exact rounding ties: Str at 2.5, the other stats at
-2.5, no multipliers. -/
def sHalf : CharacterStats :=
  CharacterStats.new fun st =>
    if st = Stat.Str then some (5 / 2) else some (-(5 / 2))

/-- Witness for C8 at both signs: base 2.5 rounds to 3 and base -2.5
rounds to -3. -/
theorem get_stat_tie_away_from_zero_witness :
    (sHalf.base Stat.Str = some (5 / 2)
      ∧ (5 / 2 : ℚ) * (1 + accMult sHalf Stat.Str) = ((2 : ℤ) : ℚ) + 1 / 2
      ∧ -(2 ^ 31) ≤ (2 : ℤ) ∧ (2 : ℤ) + 1 ≤ 2 ^ 31 - 1
      ∧ (sHalf.get_stat Stat.Str = some (if (0 : ℤ) ≤ 2 then 2 + 1 else 2)
        ∧ |((2 : ℤ) : ℚ) + 1 / 2|
            < |((if (0 : ℤ) ≤ 2 then 2 + 1 else 2 : ℤ) : ℚ)|))
    ∧ (sHalf.base Stat.Int = some (-(5 / 2))
      ∧ (-(5 / 2) : ℚ) * (1 + accMult sHalf Stat.Int) = ((-3 : ℤ) : ℚ) + 1 / 2
      ∧ -(2 ^ 31) ≤ (-3 : ℤ) ∧ (-3 : ℤ) + 1 ≤ 2 ^ 31 - 1
      ∧ (sHalf.get_stat Stat.Int = some (if (0 : ℤ) ≤ -3 then -3 + 1 else -3)
        ∧ |((-3 : ℤ) : ℚ) + 1 / 2|
            < |((if (0 : ℤ) ≤ -3 then -3 + 1 else -3 : ℤ) : ℚ)|)) :=
  ⟨⟨rfl, by rw [show accMult sHalf Stat.Str = 0 from rfl]; norm_num,
      by norm_num, by norm_num,
      get_stat_tie_away_from_zero sHalf Stat.Str (5 / 2) 2 rfl
        (by rw [show accMult sHalf Stat.Str = 0 from rfl]; norm_num)
        (by norm_num) (by norm_num)⟩,
    ⟨rfl, by rw [show accMult sHalf Stat.Int = 0 from rfl]; norm_num,
      by norm_num, by norm_num,
      get_stat_tie_away_from_zero sHalf Stat.Int (-(5 / 2)) (-3) rfl
        (by rw [show accMult sHalf Stat.Int = 0 from rfl]; norm_num)
        (by norm_num) (by norm_num)⟩⟩

/-- C9: add_multiplier and sub_multiplier on a stat S leave get_stat for
every other stat T unchanged. -/
theorem add_sub_other_stat_unchanged (s : CharacterStats) (m : Multiplier)
    (t : Stat) (h : t ≠ m.stat) :
    (s.add_multiplier m).get_stat t = s.get_stat t
      ∧ (s.sub_multiplier m).get_stat t = s.get_stat t := by
  constructor
  · rw [get_stat_eq_acc, get_stat_eq_acc, base_add_multiplier,
      accMult_add_multiplier, if_neg h]
  · rw [get_stat_eq_acc, get_stat_eq_acc, base_sub_multiplier,
      accMult_sub_multiplier, if_neg h]

/-- Witness for C9: a Str multiplier does not change get_stat(Int) on the
test fixture. -/
theorem add_sub_other_stat_unchanged_witness :
    (Stat.Int ≠ (⟨Stat.Str, 1 / 10⟩ : Multiplier).stat)
      ∧ ((s10.add_multiplier ⟨Stat.Str, 1 / 10⟩).get_stat Stat.Int
            = s10.get_stat Stat.Int
        ∧ (s10.sub_multiplier ⟨Stat.Str, 1 / 10⟩).get_stat Stat.Int
            = s10.get_stat Stat.Int) :=
  ⟨by decide,
    add_sub_other_stat_unchanged s10 ⟨Stat.Str, 1 / 10⟩ Stat.Int (by decide)⟩
